import Mathlib

/-!
Verification development for a multi-tenant WhatsApp HTTP gateway
(`server.js`), a Node/Express server built on the Baileys library.

The definitions below are a shallow embedding of the JavaScript source.
Conventions of the embedding:

* JavaScript numbers are modelled as `Int` (timestamps are integer
  seconds / milliseconds throughout the source); `NaN` is modelled by
  `Option.none` where it can arise (`Number(...)` / `parseInt(...)` of a
  non-numeric string).
* `undefined` / absent object fields are modelled with `Option`.
* JavaScript truthiness is modelled explicitly: `""`, `0`, `NaN`,
  `undefined` are falsy; note that an *empty array is truthy*.
* JavaScript `Map`s are modelled as association lists preserving
  insertion order (`Map.set` on an existing key keeps its position,
  a new key is appended; iteration is in insertion order).
* `Array.prototype.sort` is stable (ES2019); with a consistent
  comparator it is modelled by `List.mergeSort`.  A comparator that
  returns `NaN` gives implementation-defined order; the model totalises
  such comparisons by treating a `NaN` key as `0`, and theorems about
  sorting therefore hypothesise `NaN`-free inputs.
-/

namespace Gateway

/-! ### JavaScript primitive operations -/

/-- Truthiness of an optional string field: `undefined` and `""` are falsy. -/
def truthyS (s : Option String) : Bool :=
  match s with
  | some t => !t.isEmpty
  | none => false

/-- `a || b` for optional string fields: the value of the chain
(`b` is returned even when itself falsy). -/
def jsOrS (a b : Option String) : Option String :=
  if truthyS a then a else b

/-- `a || d` where the final operand is a plain (defined) string. -/
def jsOrSD (a : Option String) (d : String) : String :=
  match a with
  | some t => if t.isEmpty then d else t
  | none => d

/-- Truthiness of an optional natural-number field: `undefined` and `0` are falsy. -/
def truthyN (n : Option Nat) : Bool :=
  match n with
  | some m => m != 0
  | none => false

/-- `a || b || 0` for optional numeric fields (first truthy value, else 0). -/
def jsOrN (a b : Option Nat) : Nat :=
  match a with
  | some (m + 1) => m + 1
  | _ =>
    match b with
    | some (m + 1) => m + 1
    | _ => 0

/-- `a || b || c || 0` for optional numeric fields. -/
def jsOrN3 (a b c : Option Nat) : Nat :=
  match a with
  | some (m + 1) => m + 1
  | _ => jsOrN b c

/-- Digits of a decimal numeral to a number. -/
def digitsVal (cs : List Char) : Nat :=
  cs.foldl (fun a c => a * 10 + (c.toNat - 48)) 0

/-- JavaScript `Number(s)` for the strings that reach it in this code
base: an (optionally negative) integer decimal string converts to its
value, anything else is `NaN` (`none`).  (Fractional and exotic numeric
literals do not occur as timestamps and are out of scope.) -/
def jsNumber (s : String) : Option Int :=
  match s.data with
  | [] => some 0
  | '-' :: rest =>
    if rest ≠ [] ∧ rest.all Char.isDigit then some (-(digitsVal rest : Int)) else none
  | cs =>
    if cs.all Char.isDigit then some ((digitsVal cs : Int)) else none

/-- JavaScript `parseInt(s, 10)`: parses the longest leading (optionally
signed) digit prefix; no digits at all gives `NaN` (`none`). -/
def jsParseInt (s : String) : Option Int :=
  match s.data with
  | '-' :: rest =>
    let d := rest.takeWhile Char.isDigit
    if d = [] then none else some (-(digitsVal d : Int))
  | cs =>
    let d := cs.takeWhile Char.isDigit
    if d = [] then none else some ((digitsVal d : Int))

/-- `s.endsWith(suf)`, computed on the character lists. -/
def strEndsWith (s suf : String) : Bool :=
  suf.data.isSuffixOf s.data

/-- Is `needle` a contiguous sub-sequence of `hay`? -/
def listIsInfixOf (needle hay : List Char) : Bool :=
  match hay with
  | [] => needle.isEmpty
  | _ :: rest => needle.isPrefixOf hay || listIsInfixOf needle rest

/-- `s.includes(sub)`: substring containment. -/
def jsIncludes (s sub : String) : Bool :=
  listIsInfixOf sub.data s.data

/-- Replace the first occurrence of `pat` in a character list. -/
def listReplaceFirst (s pat repl : List Char) : List Char :=
  match s with
  | [] => []
  | c :: rest =>
    if pat.isPrefixOf (c :: rest) then repl ++ (c :: rest).drop pat.length
    else c :: listReplaceFirst rest pat repl

/-- JavaScript `String.prototype.replace` with a string pattern replaces
only the first occurrence. -/
def jsReplaceFirst (s pat repl : String) : String :=
  ⟨listReplaceFirst s.data pat.data repl.data⟩

/-- `s.split(':')[0]`. -/
def splitColonHead (s : String) : String :=
  ⟨s.data.takeWhile (· ≠ ':')⟩

/-! ### A stable sort

`Array.prototype.sort` is stable (ES2019): for a consistent comparator
its result is the unique stable sorted permutation, here computed by a
structurally recursive insertion sort (`a` is inserted before the first
element it compares `le` to, which preserves the original order of
ties). -/

/-- Insert `a` before the first element `b` with `le a b`. -/
def orderedInsertB {α : Type} (le : α → α → Bool) (a : α) : List α → List α
  | [] => [a]
  | b :: l => if le a b then a :: b :: l else b :: orderedInsertB le a l

/-- Stable sort by a boolean comparator. -/
def stableSortB {α : Type} (le : α → α → Bool) : List α → List α
  | [] => []
  | a :: l => orderedInsertB le a (stableSortB le l)

lemma mem_orderedInsertB {α : Type} (le : α → α → Bool) (a : α) (l : List α) (x : α) :
    x ∈ orderedInsertB le a l ↔ x = a ∨ x ∈ l := by
  induction l with
  | nil => simp [orderedInsertB]
  | cons b l ih =>
    by_cases h : le a b
    · simp [orderedInsertB, h]
    · simp only [orderedInsertB, h, Bool.false_eq_true, if_false, List.mem_cons, ih]
      tauto

lemma length_orderedInsertB {α : Type} (le : α → α → Bool) (a : α) (l : List α) :
    (orderedInsertB le a l).length = l.length + 1 := by
  induction l with
  | nil => simp [orderedInsertB]
  | cons b l ih =>
    by_cases h : le a b
    · simp [orderedInsertB, h]
    · simp [orderedInsertB, h, ih]

lemma length_stableSortB {α : Type} (le : α → α → Bool) (l : List α) :
    (stableSortB le l).length = l.length := by
  induction l with
  | nil => rfl
  | cons a l ih => simp [stableSortB, length_orderedInsertB, ih]

lemma pairwise_orderedInsertB {α : Type} (le : α → α → Bool)
    (htrans : ∀ a b c, le a b = true → le b c = true → le a c = true)
    (htotal : ∀ a b, le a b || le b a)
    (a : α) (l : List α) (h : l.Pairwise (le · ·)) :
    (orderedInsertB le a l).Pairwise (le · ·) := by
  induction l with
  | nil => simp [orderedInsertB]
  | cons b l ih =>
    rcases List.pairwise_cons.mp h with ⟨hb, hl⟩
    by_cases hab : le a b
    · simp only [orderedInsertB, hab, if_true]
      refine List.pairwise_cons.mpr ⟨?_, h⟩
      intro x hx
      rcases List.mem_cons.mp hx with hx | hx
      · subst hx; exact hab
      · exact htrans a b x hab (hb x hx)
    · simp only [orderedInsertB, hab, Bool.false_eq_true, if_false]
      refine List.pairwise_cons.mpr ⟨?_, ih hl⟩
      intro x hx
      rcases (mem_orderedInsertB le a l x).mp hx with hx | hx
      · rw [hx]
        have htot := htotal a b
        simp only [Bool.or_eq_true] at htot
        rcases htot with h1 | h1
        · exact absurd h1 hab
        · exact h1
      · exact hb x hx

lemma pairwise_stableSortB {α : Type} (le : α → α → Bool)
    (htrans : ∀ a b c, le a b = true → le b c = true → le a c = true)
    (htotal : ∀ a b, le a b || le b a) (l : List α) :
    (stableSortB le l).Pairwise (le · ·) := by
  induction l with
  | nil => simp [stableSortB]
  | cons a l ih => exact pairwise_orderedInsertB le htrans htotal a _ ih

/-! ### Data model: messages -/

/-- A timestamp-valued field of a raw message object.  Baileys delivers
`messageTimestamp` either as a number or as a decimal string; after the
code's own normalisation (`parseInt`) the field can also hold `NaN`. -/
inductive TsField where
  | missing
  | num (n : Int)
  | str (s : String)
  | nan
deriving DecidableEq

/-- JavaScript truthiness of a timestamp field (`0`, `""`, `NaN`,
`undefined` are falsy). -/
def TsField.truthy : TsField → Bool
  | .missing => false
  | .num n => n != 0
  | .str s => !s.isEmpty
  | .nan => false

/-- `Number(x)` on a timestamp field (`none` = `NaN`). -/
def TsField.toNumber : TsField → Option Int
  | .missing => none
  | .num n => some n
  | .str s => jsNumber s
  | .nan => none

/-- `parseInt(x, 10)` when `x` is a string, identity on numbers
(`none` = `NaN`); this is the conversion used by the response
formatter in `GET /api/:session/messages/:jid`. -/
def TsField.parseIntOrId : TsField → Option Int
  | .missing => none
  | .num n => some n
  | .str s => jsParseInt s
  | .nan => none

/-- `msg.key`: chat jid, message id (which Baileys can omit), own-message flag. -/
structure MsgKey where
  remoteJid : String
  id : Option String
  fromMe : Bool
deriving DecidableEq

/-- The content variants distinguished by the response formatter. -/
inductive MsgContent where
  | conversation (text : String)
  | extendedText (text : String)
  | image (caption : Option String)
  | video (caption : Option String)
  | audio
  | document (fileName : Option String)
  | sticker
  | other
deriving DecidableEq

/-- `msg.message`: the content payload, which itself may carry a nested
`messageTimestamp`. -/
structure MsgBody where
  content : MsgContent
  messageTimestamp : TsField
deriving DecidableEq

/-- A raw message object as stored in the per-session message ledger. -/
structure Msg where
  key : Option MsgKey
  messageTimestamp : TsField
  timestamp : TsField
  message : Option MsgBody
deriving DecidableEq

/-- `msg.key?.id` (undefined when either the key or its id is absent). -/
def keyId (m : Msg) : Option String :=
  m.key.bind (·.id)

/-- The per-chat ledger cap (`if (chatMessages.length > 100) shift()`). -/
def LEDGER_CAP : Nat := 100

/-- One ledger append, as performed identically by the
`messages.upsert` handler and the `messaging-history.set` handler:
skip if a stored message has the same `key?.id` (strict equality, so
two `undefined` ids also match), else push, then shift once if the
length exceeds the cap. -/
def appendMessage (chatMessages : List Msg) (message : Msg) : List Msg :=
  let alreadyStored := chatMessages.any (fun m => keyId m == keyId message)
  if alreadyStored then chatMessages
  else
    let pushed := chatMessages ++ [message]
    if pushed.length > LEDGER_CAP then pushed.drop 1 else pushed

/-! ### Ledger lemmas -/

lemma appendMessage_length_le (L : List Msg) (m : Msg) (h : L.length ≤ LEDGER_CAP) :
    (appendMessage L m).length ≤ LEDGER_CAP := by
  unfold appendMessage
  dsimp only
  split
  · exact h
  · split
    · next hlen =>
      simp only [List.length_drop, List.length_append, List.length_cons,
        List.length_nil] at *
      omega
    · next hlen =>
      simp only [List.length_append, List.length_cons, List.length_nil] at *
      omega

lemma foldl_appendMessage_length_le (init : List Msg) (ms : List Msg)
    (h : init.length ≤ LEDGER_CAP) :
    (ms.foldl appendMessage init).length ≤ LEDGER_CAP := by
  induction ms generalizing init with
  | nil => exact h
  | cons m rest ih =>
    exact ih (appendMessage init m) (appendMessage_length_le init m h)

/-- Appending a batch of messages with pairwise distinct ids to an empty
ledger keeps exactly the most recently appended `LEDGER_CAP` of them, in
insertion order. -/
lemma foldl_appendMessage_fifo (ms : List Msg) (h : (ms.map keyId).Nodup) :
    ms.foldl appendMessage [] = ms.drop (ms.length - LEDGER_CAP) := by
  induction ms using List.reverseRecOn with
  | nil => simp
  | append_singleton ms m ih =>
    rw [List.map_append] at h
    have hparts := List.nodup_append.mp h
    have hms : (ms.map keyId).Nodup := hparts.1
    have hdisj : ∀ x ∈ ms.map keyId, x ∉ [keyId m] := hparts.2.2
    have hmem : keyId m ∉ ms.map keyId := by
      intro hin
      exact hdisj (keyId m) hin (List.mem_singleton.mpr rfl)
    rw [List.foldl_append]
    simp only [List.foldl_cons, List.foldl_nil]
    rw [ih hms]
    have hfresh : (ms.drop (ms.length - LEDGER_CAP)).any
        (fun x => keyId x == keyId m) = false := by
      rw [List.any_eq_false]
      intro x hx
      simp only [beq_iff_eq]
      intro hxe
      exact hmem (hxe ▸ List.mem_map_of_mem keyId (List.drop_subset _ ms hx))
    unfold appendMessage
    dsimp only
    rw [hfresh]
    simp only [Bool.false_eq_true, if_false]
    by_cases hlen : ms.length ≤ LEDGER_CAP - 1
    · have h1 : ms.length - LEDGER_CAP = 0 := by unfold LEDGER_CAP at *; omega
      have h2 : (ms ++ [m]).length - LEDGER_CAP = 0 := by
        simp only [List.length_append, List.length_cons, List.length_nil]
        unfold LEDGER_CAP at *; omega
      rw [h1, h2, List.drop_zero, List.drop_zero]
      have h3 : ¬ (ms ++ [m]).length > LEDGER_CAP := by
        simp only [List.length_append, List.length_cons, List.length_nil]
        unfold LEDGER_CAP at *; omega
      simp only [h3, if_false]
    · have hge : LEDGER_CAP ≤ ms.length := by unfold LEDGER_CAP at *; omega
      have hdlen : (ms.drop (ms.length - LEDGER_CAP)).length = LEDGER_CAP := by
        rw [List.length_drop]; omega
      have hover : (ms.drop (ms.length - LEDGER_CAP) ++ [m]).length > LEDGER_CAP := by
        simp only [List.length_append, hdlen, List.length_cons, List.length_nil]
        omega
      simp only [hover, if_true]
      have h1le : 1 ≤ (ms.drop (ms.length - LEDGER_CAP)).length := by
        rw [hdlen]; unfold LEDGER_CAP; omega
      have h4 : (ms ++ [m]).length - LEDGER_CAP = (ms.length - LEDGER_CAP) + 1 := by
        simp only [List.length_append, List.length_cons, List.length_nil]
        omega
      have h5 : ms.length - LEDGER_CAP + 1 ≤ ms.length := by
        unfold LEDGER_CAP at hge ⊢; omega
      rw [List.drop_append_of_le_length h1le, List.drop_drop, h4,
        List.drop_append_of_le_length h5]

/-- Claim C2: for every reachable ledger and every sequence of appends
the ledger holds at most 100 entries, and appending 150 messages with
pairwise distinct ids to one chat's empty ledger leaves exactly the 100
most recently appended ones — the oldest 50 are evicted by insertion
order (FIFO). -/
theorem ledger_cap_and_fifo :
    (∀ (init ms : List Msg), init.length ≤ LEDGER_CAP →
      (ms.foldl appendMessage init).length ≤ LEDGER_CAP)
    ∧ (∀ ms : List Msg, (ms.map keyId).Nodup → ms.length = 150 →
      ms.foldl appendMessage [] = ms.drop 50) := by
  constructor
  · intro init ms h
    exact foldl_appendMessage_length_le init ms h
  · intro ms hnodup hlen
    have := foldl_appendMessage_fifo ms hnodup
    rw [hlen] at this
    exact this

/-- A concrete message with a numeric id, used for ledger witnesses. -/
def mkLedgerMsg (i : Nat) : Msg :=
  { key := some { remoteJid := "120@s.whatsapp.net", id := some (toString i), fromMe := false },
    messageTimestamp := .num (1700000000 + i), timestamp := .missing, message := none }

/-- 150 pairwise distinct messages. -/
def ledgerBatch : List Msg := (List.range 150).map mkLedgerMsg

set_option maxRecDepth 100000 in
/-- Witness for claim C2 at a concrete batch of 150 distinct messages. -/
theorem ledger_cap_and_fifo_witness :
    (ledgerBatch.foldl appendMessage []).length ≤ LEDGER_CAP
    ∧ ledgerBatch.foldl appendMessage [] = ledgerBatch.drop 50 :=
  ⟨ledger_cap_and_fifo.1 [] ledgerBatch (by decide),
   ledger_cap_and_fifo.2 ledgerBatch (by decide) (by decide)⟩

lemma appendMessage_of_dup (L : List Msg) (m : Msg)
    (h : L.any (fun x => keyId x == keyId m) = true) : appendMessage L m = L := by
  unfold appendMessage
  simp only [h, if_true]

lemma keyId_mem_appendMessage (L : List Msg) (m : Msg) :
    (appendMessage L m).any (fun x => keyId x == keyId m) = true := by
  unfold appendMessage
  dsimp only
  split
  · next h => exact h
  · split
    · next hlen =>
      rw [List.any_eq_true]
      have hm : m ∈ (L ++ [m]).drop 1 := by
        have hL : L ≠ [] := by
          intro hnil
          subst hnil
          simp [LEDGER_CAP] at hlen
        match L, hL with
        | a :: L2, _ =>
          simp
      exact ⟨m, hm, by simp⟩
    · rw [List.any_eq_true]
      exact ⟨m, by simp, by simp⟩

/-- Claim C3: ledger appends are idempotent by message id.  (1) If a
stored message already carries the incoming id, the append is a no-op;
(2) hence appending a second message with the same id — whatever its
content — right after a first append changes nothing; (3) a fresh
append leaves exactly one entry with that id. -/
theorem ledger_append_idempotent :
    (∀ (L : List Msg) (m : Msg),
      L.any (fun x => keyId x == keyId m) = true → appendMessage L m = L)
    ∧ (∀ (L : List Msg) (m m2 : Msg), keyId m2 = keyId m →
      appendMessage (appendMessage L m) m2 = appendMessage L m)
    ∧ (∀ (L : List Msg) (m : Msg),
      L.countP (fun x => keyId x == keyId m) = 0 →
      (appendMessage L m).countP (fun x => keyId x == keyId m) = 1) := by
  refine ⟨?_, ?_, ?_⟩
  · intro L m h
    exact appendMessage_of_dup L m h
  · intro L m m2 hid
    have hmem2 : (appendMessage L m).any (fun x => keyId x == keyId m2) = true := by
      rw [hid]; exact keyId_mem_appendMessage L m
    exact appendMessage_of_dup (appendMessage L m) m2 hmem2
  · intro L m h
    have hnone : L.any (fun x => keyId x == keyId m) = false := by
      rw [List.any_eq_false]
      intro x hx
      have := List.countP_eq_zero.mp h x hx
      simpa using this
    unfold appendMessage
    dsimp only
    rw [hnone]
    simp only [Bool.false_eq_true, if_false]
    have hpushed : (L ++ [m]).countP (fun x => keyId x == keyId m) = 1 := by
      rw [List.countP_append]
      rw [h]
      simp [List.countP_cons]
    split
    · next hlen =>
      have hL : L ≠ [] := by
        intro hnil
        subst hnil
        simp [LEDGER_CAP] at hlen
      match L, hL, h, hnone with
      | a :: L2, _, h, hnone =>
        simp only [List.cons_append, List.drop_succ_cons, List.drop_zero]
        have ha : ¬ (keyId a == keyId m) = true := by
          have := List.countP_eq_zero.mp h a (by simp)
          simpa using this
        rw [List.countP_append]
        have hL2 : L2.countP (fun x => keyId x == keyId m) = 0 := by
          rw [List.countP_eq_zero]
          intro x hx
          exact List.countP_eq_zero.mp h x (by simp [hx])
        rw [hL2]
        simp [List.countP_cons]
    · exact hpushed

/-- Witness for claim C3: a duplicate-id append at concrete inputs. -/
theorem ledger_append_idempotent_witness :
    appendMessage [mkLedgerMsg 0] (mkLedgerMsg 0) = [mkLedgerMsg 0]
    ∧ appendMessage (appendMessage [] (mkLedgerMsg 1)) (mkLedgerMsg 1)
        = appendMessage [] (mkLedgerMsg 1)
    ∧ (appendMessage [] (mkLedgerMsg 2)).countP
        (fun x => keyId x == keyId (mkLedgerMsg 2)) = 1 :=
  ⟨ledger_append_idempotent.1 [mkLedgerMsg 0] (mkLedgerMsg 0) (by decide),
   ledger_append_idempotent.2.1 [] (mkLedgerMsg 1) (mkLedgerMsg 1) rfl,
   ledger_append_idempotent.2.2 [] (mkLedgerMsg 2) (by decide)⟩

/-! ### Data model: chats, stores -/

/-- An entry of a chat's embedded message array.  The extraction code
computes `msgWrapper.message || msgWrapper`: a `wrapped` entry is an
object whose `.message` property holds the full message, a `bare` entry
is the message object itself (whose own `.message` property, when
present, is the content payload). -/
inductive MsgWrapper where
  | wrapped (m : Msg)
  | bare (m : Msg)
deriving DecidableEq

/-- A raw chat object as delivered by `chats.update` /
`messaging-history.set` and stored in the per-session chat map. -/
structure Chat where
  id : Option String
  jid : Option String
  name : Option String
  subject : Option String
  notify : Option String
  pushName : Option String
  unreadCount : Option Nat
  count : Option Nat
  unread : Option Nat
  conversationTimestamp : Option Int
  pinned : Bool
  messages : Option (List MsgWrapper)
  rawMessages : Option (List MsgWrapper)
deriving DecidableEq

/-- The per-session message map (`sessionMessages.get(name)`):
chat jid → stored message array, insertion-ordered. -/
abbrev MsgStore := List (String × List Msg)

/-- The per-session chat map (`sessionChats.get(name)`). -/
abbrev ChatMap := List (String × Chat)

/-- `map.get(k)` (first entry with the key). -/
def storeGet : MsgStore → String → Option (List Msg)
  | [], _ => none
  | (k2, v) :: rest, k => if k2 == k then some v else storeGet rest k

/-- `map.set(k, v)`: replace in place, or append a new key. -/
def storeSet (s : MsgStore) (k : String) (v : List Msg) : MsgStore :=
  match s with
  | [] => [(k, v)]
  | (k2, v2) :: rest => if k2 == k then (k, v) :: rest else (k2, v2) :: storeSet rest k v

/-- `chatMap.get(k)`. -/
def lookupChat (cm : ChatMap) (k : String) : Option Chat :=
  (cm.find? (fun p => p.1 == k)).map (·.2)

/-! ### Timestamp normalisation and the ledger read -/

/-- The `getTs` helper inside `getMessagesForChat`: first truthy one of
`msg.messageTimestamp`, `msg.timestamp`, `msg.message?.messageTimestamp`,
converted with `Number(...)`; otherwise `0`.  `none` is `NaN`. -/
def getTs (msg : Msg) : Option Int :=
  if msg.messageTimestamp.truthy then msg.messageTimestamp.toNumber
  else if msg.timestamp.truthy then msg.timestamp.toNumber
  else
    match msg.message with
    | some b => if b.messageTimestamp.truthy then b.messageTimestamp.toNumber else some 0
    | none => some 0

/-- Totalised sort key: a `NaN` comparison result is implementation-
defined in `Array.prototype.sort`; the model keys `NaN` as `0` (see the
header note) and theorems about order assume `NaN`-free input. -/
def tsNum (m : Msg) : Int :=
  (getTs m).getD 0

/-- The comparator `(a, b) => getTs(a) - getTs(b)` as a total order test. -/
def ledgerLe (a b : Msg) : Bool :=
  tsNum a ≤ tsNum b

/-- The in-place `allMessages.sort(...)` of `getMessagesForChat`
(stable, ascending by normalised timestamp). -/
def sortByTs (msgs : List Msg) : List Msg :=
  stableSortB ledgerLe msgs

/-- The lookup part of `getMessagesForChat`: exact-jid `map.get`, and on
a miss (or an empty array) the scan over all stored jids comparing both
sides URL-decoded.  Returns the matched stored jid and its array. -/
def gmfcHit (decode : String → String) (messageMap : MsgStore) (jid : String) :
    Option (String × List Msg) :=
  let scan : Option (String × List Msg) :=
    messageMap.find? (fun p => p.1 == jid || p.1 == decode jid || decode p.1 == jid)
  match storeGet messageMap jid with
  | some l => if l.isEmpty then scan else some (jid, l)
  | none => scan

/-- `getMessagesForChat(sessionName, jid, minCount)`: exact-jid lookup,
then a URL-decoding scan over stored jids; slices the last
`max(minCount, unreadCount)` messages of the timestamp-sorted array
(`Math.max(0, …)` is Nat subtraction).  `Array.prototype.sort` mutates
the stored array, so the function returns the updated message map as
well. -/
def getMessagesForChat (decode : String → String) (messageMap : MsgStore)
    (chatMap : ChatMap) (jid : String) (minCount : Nat) : List Msg × MsgStore :=
  match gmfcHit decode messageMap jid with
  | none => ([], messageMap)
  | some (sj, l) =>
    if l.isEmpty then ([], messageMap)
    else
      let chat := lookupChat chatMap jid
      let unreadCount :=
        jsOrN3 (chat.bind (·.unreadCount)) (chat.bind (·.count)) (chat.bind (·.unread))
      let need := max minCount unreadCount
      let start := l.length - need
      let sorted := sortByTs l
      (sorted.drop start, storeSet messageMap sj sorted)

lemma ledgerLe_trans (a b c : Msg) (h1 : ledgerLe a b) (h2 : ledgerLe b c) :
    ledgerLe a c := by
  simp only [ledgerLe, decide_eq_true_eq] at *
  omega

lemma ledgerLe_total (a b : Msg) : ledgerLe a b || ledgerLe b a := by
  simp only [ledgerLe, Bool.or_eq_true, decide_eq_true_eq]
  omega

lemma sortByTs_pairwise (msgs : List Msg) :
    List.Pairwise (fun a b => tsNum a ≤ tsNum b) (sortByTs msgs) := by
  have h := pairwise_stableSortB ledgerLe ledgerLe_trans ledgerLe_total msgs
  exact h.imp (fun hab => by simpa [ledgerLe, decide_eq_true_eq] using hab)

/-- A concrete message whose `messageTimestamp` is the non-numeric
string `"abc"`. -/
def msgNonNumericTs : Msg :=
  { key := some { remoteJid := "999@s.whatsapp.net", id := some "X1", fromMe := false },
    messageTimestamp := .str "abc", timestamp := .missing, message := none }

/-- Counterexample for claim C4: the claim says a non-numeric timestamp
normalises to `0`, but `Number("abc")` is `NaN`, so `getTs` yields `NaN`
(modelled `none`), not `0` — and a `NaN` comparator result makes the
sort position implementation-defined rather than "before every
timestamped message". -/
theorem getTs_non_numeric_is_nan :
    getTs msgNonNumericTs = none ∧ getTs msgNonNumericTs ≠ some 0 := by
  refine ⟨by decide, by decide⟩

/-- Claim C4 (amended): a missing timestamp normalises to `0` (and hence
sorts before positively-timestamped messages); an integer-seconds or
integer-valued decimal-string timestamp converts to its numeric value;
reading a chat's messages returns a list ascending by normalised
timestamp whenever no stored timestamp normalises to `NaN`.  (A
non-numeric string yields `NaN`, not `0`.) -/
theorem read_sorted_by_normalized_ts :
    (∀ m : Msg, m.messageTimestamp = .missing → m.timestamp = .missing →
      m.message = none → getTs m = some 0)
    ∧ (∀ (s : String), s.data ≠ [] → s.data.all Char.isDigit →
      ∀ m : Msg, m.messageTimestamp = .str s → getTs m = some ((digitsVal s.data : Int)))
    ∧ (∀ (decode : String → String) (messageMap : MsgStore) (chatMap : ChatMap)
        (jid : String) (minCount : Nat),
      (∀ p ∈ messageMap, ∀ m ∈ p.2, (getTs m).isSome) →
      List.Pairwise (fun a b => tsNum a ≤ tsNum b)
        (getMessagesForChat decode messageMap chatMap jid minCount).1) := by
  refine ⟨?_, ?_, ?_⟩
  · intro m h1 h2 h3
    simp [getTs, h1, h2, h3, TsField.truthy]
  · intro s hne hdig m hm
    have hsEmpty : s.isEmpty = false := by
      by_contra hcon
      have htrue : s.isEmpty = true := by
        revert hcon; cases s.isEmpty <;> simp
      rw [String.isEmpty_iff] at htrue
      exact hne (by rw [htrue])
    have hstruthy : (TsField.str s).truthy = true := by
      simp [TsField.truthy, hsEmpty]
    have hnum : jsNumber s = some ((digitsVal s.data : Int)) := by
      unfold jsNumber
      split
      · next heq => exact absurd heq hne
      · next rest heq =>
        rw [heq] at hdig
        simp at hdig
      · rw [if_pos hdig]
    rw [getTs, hm, if_pos hstruthy]
    simpa [TsField.toNumber] using hnum
  · intro decode messageMap chatMap jid minCount hno
    unfold getMessagesForChat
    dsimp only
    split
    · exact List.Pairwise.nil
    · next sj l heq =>
      split
      · exact List.Pairwise.nil
      · exact (sortByTs_pairwise l).sublist (List.drop_sublist _ _)

/-- Witness for (amended) claim C4 at a concrete two-message store. -/
theorem read_sorted_by_normalized_ts_witness :
    List.Pairwise (fun a b => tsNum a ≤ tsNum b)
      (getMessagesForChat id [("c@s.whatsapp.net", [mkLedgerMsg 7, mkLedgerMsg 3])]
        [] "c@s.whatsapp.net" 10).1 :=
  read_sorted_by_normalized_ts.2.2 id
    [("c@s.whatsapp.net", [mkLedgerMsg 7, mkLedgerMsg 3])] [] "c@s.whatsapp.net" 10
    (by decide)

/-! ### Identity reconciler (`GET /api/:session/chats`) -/

/-- A contact record from the bound in-memory store. -/
structure Contact where
  name : Option String
  notify : Option String
  pushName : Option String
  phoneNumber : Option String
deriving DecidableEq

/-- The formatted chat object built by the `/chats` handler. -/
structure FmtChat where
  id : String
  originalId : String
  name : String
  type : String
  unreadCount : Nat
  lastMessageTime : Option Int
  pinned : Bool
  raw : Chat
deriving DecidableEq

/-- `chat.id || chat.jid` followed by the `if (!chatId) continue` guard:
the effective chat id, or `none` when every candidate is falsy. -/
def jsChatId (chat : Chat) : Option String :=
  if truthyS chat.id then chat.id
  else if truthyS chat.jid then chat.jid
  else none

/-- The broadcast / system sentinel skip. -/
def isBroadcastOrSystem (chatId : String) : Bool :=
  chatId == "status@broadcast" || jsIncludes chatId "broadcast" || chatId == "server@c.us"

/-- `chatId.match(/^(\d+)@lid$/)`: the digit group, when the whole id is
digits followed by `@lid`. -/
def lidDigits (s : String) : Option String :=
  if strEndsWith s "@lid" then
    let pre : String := ⟨s.data.take (s.data.length - 4)⟩
    if pre.data ≠ [] ∧ pre.data.all Char.isDigit then some pre else none
  else none

/-- First pass of the `/chats` handler for one raw chat: skip sentinels,
classify by suffix, resolve an anonymous (`@lid`) id to a phone id via
the contact table or the 10–15-digit structural fallback, and build the
formatted record keyed by its canonical id.  `none` means the chat is
skipped. -/
def formatChat (contacts : String → Option Contact) (chat : Chat) :
    Option (String × FmtChat) :=
  match jsChatId chat with
  | none => none
  | some chatId =>
    if isBroadcastOrSystem chatId then none
    else
      let unreadCount := jsOrN chat.unreadCount chat.unread
      let lastMessageTime : Option Int :=
        match chat.conversationTimestamp with
        | some t => if t != 0 then some t else none
        | none => none
      let mk : String → String → String → Option (String × FmtChat) :=
        fun canonicalId chatName chatType =>
          some (canonicalId,
            { id := canonicalId, originalId := chatId, name := chatName,
              type := chatType, unreadCount := unreadCount,
              lastMessageTime := lastMessageTime, pinned := chat.pinned,
              raw := chat })
      if strEndsWith chatId "@g.us" then
        mk chatId (jsOrSD chat.subject (jsOrSD chat.name "Group")) "group"
      else if strEndsWith chatId "@s.whatsapp.net" then
        let h := splitColonHead chatId
        let phone := if h.isEmpty then jsReplaceFirst chatId "@s.whatsapp.net" "" else h
        mk chatId (jsOrSD chat.name (jsOrSD chat.notify (jsOrSD chat.pushName phone)))
          "individual"
      else if strEndsWith chatId "@lid" then
        let contact := contacts chatId
        let resolvedName : Option String :=
          match contact with
          | some c => jsOrS c.name (jsOrS c.notify c.pushName)
          | none => none
        let resolvedPhone : Option String :=
          match contact with
          | some c => if truthyS c.phoneNumber then c.phoneNumber else none
          | none => none
        match resolvedPhone with
        | some phone =>
          mk (phone ++ "@s.whatsapp.net") (jsOrSD resolvedName phone) "individual"
        | none =>
          match lidDigits chatId with
          | some d =>
            if 10 ≤ d.length ∧ d.length ≤ 15 then
              mk (d ++ "@s.whatsapp.net") (jsOrSD resolvedName d) "individual"
            else
              mk chatId
                (jsOrSD resolvedName (jsOrSD chat.name (jsOrSD chat.notify
                  (jsOrSD chat.pushName "Unknown Contact")))) "individual"
          | none =>
            mk chatId
              (jsOrSD resolvedName (jsOrSD chat.name (jsOrSD chat.notify
                (jsOrSD chat.pushName "Unknown Contact")))) "individual"
      else none

/-- The merge of an incoming formatted chat into the existing canonical
record: name only if the current one is the "Unknown" sentinel, unread
counts summed, newest activity time (and its raw payload) kept. -/
def mergeRecord (existing incoming : FmtChat) : FmtChat :=
  let e1 :=
    if existing.name == "Unknown" && incoming.name != "Unknown" then
      { existing with name := incoming.name }
    else existing
  let e2 := { e1 with unreadCount := e1.unreadCount + incoming.unreadCount }
  match incoming.lastMessageTime with
  | some tf =>
    match e2.lastMessageTime with
    | some te =>
      if tf > te then { e2 with lastMessageTime := some tf, raw := incoming.raw }
      else e2
    | none => { e2 with lastMessageTime := some tf, raw := incoming.raw }
  | none => e2

/-- The canonical-id-keyed map of merged chats (`mergedChats`), as an
insertion-ordered association list. -/
abbrev MergedMap := List (String × FmtChat)

/-- `mergedChats.has/get/set` combined: merge into the existing entry in
place, or append a new one. -/
def insertMerge : MergedMap → String → FmtChat → MergedMap
  | [], k, f => [(k, f)]
  | (k1, e) :: rest, k, f =>
    if k1 == k then (k1, mergeRecord e f) :: rest
    else (k1, e) :: insertMerge rest k f

/-- One loop iteration of the `/chats` merge pass. -/
def mergeStep (contacts : String → Option Contact) (acc : MergedMap) (chat : Chat) :
    MergedMap :=
  match formatChat contacts chat with
  | some (k, f) => insertMerge acc k f
  | none => acc

/-- The whole merge pass over a batch of raw chats. -/
def reconcileChats (contacts : String → Option Contact) (chats : List Chat) :
    MergedMap :=
  chats.foldl (mergeStep contacts) []

/-- `map.get(k)` on the merged map (first entry with the key). -/
def lookupMerged : MergedMap → String → Option FmtChat
  | [], _ => none
  | (k1, e) :: rest, k => if k1 == k then some e else lookupMerged rest k

/-- The canonical ids present in the merged map, in insertion order. -/
def mergedKeys (acc : MergedMap) : List String :=
  acc.map (·.1)


/-! ### Reconciler lemmas -/

/-- The unread count a single raw chat contributes to canonical id `k`. -/
def contribUnread (contacts : String → Option Contact) (c : Chat) (k : String) : Nat :=
  match formatChat contacts c with
  | some (k2, f) => if k2 = k then f.unreadCount else 0
  | none => 0

/-- Total unread count contributed to canonical id `k` by a batch. -/
def sumUnread (contacts : String → Option Contact) (chats : List Chat) (k : String) : Nat :=
  (chats.map (fun c => contribUnread contacts c k)).sum

/-- Unread count of an optional record (0 when absent). -/
def optUnread (o : Option FmtChat) : Nat :=
  match o with
  | some f => f.unreadCount
  | none => 0

lemma mergeRecord_unreadCount (e f : FmtChat) :
    (mergeRecord e f).unreadCount = e.unreadCount + f.unreadCount := by
  simp only [mergeRecord]
  repeat' split
  all_goals simp

lemma mergeRecord_name (e f : FmtChat) :
    (mergeRecord e f).name =
      if e.name = "Unknown" ∧ f.name ≠ "Unknown" then f.name else e.name := by
  simp only [mergeRecord]
  repeat' split
  all_goals simp_all

lemma lookupMerged_insertMerge (acc : MergedMap) (kIns : String) (f : FmtChat)
    (kQ : String) :
    lookupMerged (insertMerge acc kIns f) kQ =
      if kQ = kIns then
        some (match lookupMerged acc kIns with
              | some e => mergeRecord e f
              | none => f)
      else lookupMerged acc kQ := by
  induction acc with
  | nil =>
    by_cases h : kQ = kIns
    · subst h
      simp [insertMerge, lookupMerged]
    · simp [insertMerge, lookupMerged, h, Ne.symm h]
  | cons p rest ih =>
    obtain ⟨k1, e⟩ := p
    by_cases h1 : k1 = kIns
    · subst h1
      simp only [insertMerge, beq_self_eq_true, if_true]
      by_cases h2 : k1 = kQ
      · subst h2
        simp [lookupMerged]
      · have h2s : ¬ kQ = k1 := Ne.symm h2
        simp [lookupMerged, h2, h2s]
    · have hbne : (k1 == kIns) = false := beq_eq_false_iff_ne.mpr h1
      simp only [insertMerge, hbne, Bool.false_eq_true, if_false]
      by_cases h2 : k1 = kQ
      · subst h2
        have hQI : ¬ k1 = kIns := h1
        simp [lookupMerged, hbne, Ne.symm hQI, hQI]
      · simp [lookupMerged, h2, hbne, ih]

lemma mergeStep_unread (contacts : String → Option Contact) (acc : MergedMap)
    (c : Chat) (k : String) :
    optUnread (lookupMerged (mergeStep contacts acc c) k)
      = optUnread (lookupMerged acc k) + contribUnread contacts c k := by
  unfold mergeStep contribUnread
  match hf : formatChat contacts c with
  | none => simp
  | some (k2, f) =>
    rw [lookupMerged_insertMerge]
    by_cases hk : k = k2
    · subst hk
      simp only [if_pos rfl]
      match hv : lookupMerged acc k with
      | some e => simp [optUnread, mergeRecord_unreadCount]
      | none => simp [optUnread]
    · simp [hk, Ne.symm hk]

lemma foldl_mergeStep_unread (contacts : String → Option Contact)
    (chats : List Chat) (acc : MergedMap) (k : String) :
    optUnread (lookupMerged (chats.foldl (mergeStep contacts) acc) k)
      = optUnread (lookupMerged acc k) + sumUnread contacts chats k := by
  induction chats generalizing acc with
  | nil => simp [sumUnread]
  | cons c rest ih =>
    rw [List.foldl_cons, ih (mergeStep contacts acc c), mergeStep_unread]
    simp [sumUnread]
    omega

lemma mergedKeys_cons (k1 : String) (e : FmtChat) (rest : MergedMap) :
    mergedKeys ((k1, e) :: rest) = k1 :: mergedKeys rest := rfl

lemma insertMerge_keys (acc : MergedMap) (k : String) (f : FmtChat) :
    mergedKeys (insertMerge acc k f) =
      if k ∈ mergedKeys acc then mergedKeys acc else mergedKeys acc ++ [k] := by
  induction acc with
  | nil => simp [insertMerge, mergedKeys]
  | cons p rest ih =>
    obtain ⟨k1, e⟩ := p
    by_cases h1 : k1 = k
    · subst h1
      simp [insertMerge, mergedKeys_cons]
    · have hbne : (k1 == k) = false := beq_eq_false_iff_ne.mpr h1
      have hks : ¬ k = k1 := Ne.symm h1
      simp only [insertMerge, hbne, Bool.false_eq_true, if_false, mergedKeys_cons]
      rw [ih]
      by_cases h2 : k ∈ mergedKeys rest
      · simp [mergedKeys_cons, List.mem_cons, h2, hks]
      · simp [mergedKeys_cons, List.mem_cons, h2, hks]

lemma insertMerge_nodup (acc : MergedMap) (k : String) (f : FmtChat)
    (h : (mergedKeys acc).Nodup) : (mergedKeys (insertMerge acc k f)).Nodup := by
  rw [insertMerge_keys]
  split
  · exact h
  · next hnot =>
    simp only [List.nodup_append, List.nodup_cons, List.not_mem_nil, not_false_iff,
      List.nodup_nil, and_true, true_and]
    constructor
    · exact h
    · intro a ha hb
      simp only [List.mem_singleton] at hb
      subst hb
      exact hnot ha

lemma foldl_mergeStep_nodup (contacts : String → Option Contact)
    (chats : List Chat) (acc : MergedMap) (h : (mergedKeys acc).Nodup) :
    (mergedKeys (chats.foldl (mergeStep contacts) acc)).Nodup := by
  induction chats generalizing acc with
  | nil => exact h
  | cons c rest ih =>
    rw [List.foldl_cons]
    refine ih (mergeStep contacts acc c) ?_
    unfold mergeStep
    match formatChat contacts c with
    | none => exact h
    | some (k2, f) => exact insertMerge_nodup acc k2 f h

/-! ### Concrete reconciler inputs (spec §8 example) -/

/-- Contact table resolving the anonymous id `B@lid` to phone `A`. -/
def contactsEx : String → Option Contact := fun s =>
  if s == "B@lid" then
    some { name := none, notify := none, pushName := none, phoneNumber := some "A" }
  else none

/-- A chat object with every optional field absent. -/
def blankChat : Chat :=
  { id := none, jid := none, name := none, subject := none, notify := none,
    pushName := none, unreadCount := none, count := none, unread := none,
    conversationTimestamp := none, pinned := false, messages := none,
    rawMessages := none }

/-- The raw phone record `{id:"A@s.whatsapp.net", unread:2}`. -/
def phoneChatEx : Chat := { blankChat with id := some "A@s.whatsapp.net", unreadCount := some 2 }

/-- The raw anonymous record `{id:"B@lid", unread:3}`. -/
def lidChatEx : Chat := { blankChat with id := some "B@lid", unreadCount := some 3 }

/-- Claim C1: reconciling the phone record `A@s.whatsapp.net` (unread 2)
with the anonymous record `B@lid` (unread 3) whose contact resolves to
phone `A` yields exactly one canonical record, keyed
`A@s.whatsapp.net`, with unread count 5 — in either batch order; and in
general the merged map has at most one record per canonical id, and
each record's unread count is the sum (never an overwrite) of the
unread counts of all raw records merging into that id. -/
theorem reconcile_merge_unread_sum :
    (∀ (contacts : String → Option Contact) (chats : List Chat),
      (mergedKeys (reconcileChats contacts chats)).Nodup
      ∧ ∀ (k : String) (f : FmtChat),
          lookupMerged (reconcileChats contacts chats) k = some f →
          f.unreadCount = sumUnread contacts chats k)
    ∧ (reconcileChats contactsEx [phoneChatEx, lidChatEx]).map
        (fun p => (p.1, p.2.unreadCount)) = [("A@s.whatsapp.net", 5)]
    ∧ (reconcileChats contactsEx [lidChatEx, phoneChatEx]).map
        (fun p => (p.1, p.2.unreadCount)) = [("A@s.whatsapp.net", 5)] := by
  refine ⟨fun contacts chats => ⟨?_, ?_⟩, by decide, by decide⟩
  · exact foldl_mergeStep_nodup contacts chats [] (by simp [mergedKeys])
  · intro k f hf
    have h := foldl_mergeStep_unread contacts chats [] k
    unfold reconcileChats at hf
    rw [hf] at h
    simpa [optUnread, lookupMerged] using h

/-- Witness for claim C1: the general sum law applied at the concrete
two-record batch. -/
theorem reconcile_merge_unread_sum_witness :
    ({ id := "A@s.whatsapp.net", originalId := "A@s.whatsapp.net",
       name := "A@s.whatsapp.net", type := "individual", unreadCount := 5,
       lastMessageTime := none, pinned := false, raw := phoneChatEx } : FmtChat).unreadCount
      = sumUnread contactsEx [phoneChatEx, lidChatEx] "A@s.whatsapp.net" :=
  (reconcile_merge_unread_sum.1 contactsEx [phoneChatEx, lidChatEx]).2
    "A@s.whatsapp.net" _ (by decide)

/-- A canonical record whose name is still the "Unknown" sentinel. -/
def unknownNamedRec : FmtChat :=
  { id := "77@s.whatsapp.net", originalId := "77@s.whatsapp.net", name := "Unknown",
    type := "individual", unreadCount := 0, lastMessageTime := none, pinned := false,
    raw := blankChat }

/-- An incoming record carrying a real display name. -/
def aliceNamedRec : FmtChat :=
  { unknownNamedRec with name := "Alice", unreadCount := 1 }

/-- Claim C8: during reconciliation a canonical record's display name
changes only when the current name is exactly the sentinel "Unknown"
and the incoming name is not; hence a record that already has a real
name keeps it (it can never revert to "Unknown"), and at the concrete
spec example the sentinel is replaced by the real name. -/
theorem merge_name_if_better :
    (∀ e f : FmtChat, e.name ≠ "Unknown" → (mergeRecord e f).name = e.name)
    ∧ (∀ e f : FmtChat, (mergeRecord e f).name ≠ e.name →
        e.name = "Unknown" ∧ f.name ≠ "Unknown" ∧ (mergeRecord e f).name = f.name)
    ∧ (∀ e f : FmtChat, e.name ≠ "Unknown" → (mergeRecord e f).name ≠ "Unknown")
    ∧ (mergeRecord unknownNamedRec aliceNamedRec).name = "Alice" := by
  refine ⟨?_, ?_, ?_, by decide⟩
  · intro e f he
    rw [mergeRecord_name]
    simp [he]
  · intro e f hne
    rw [mergeRecord_name] at *
    by_cases h1 : e.name = "Unknown" <;> by_cases h2 : f.name = "Unknown"
    all_goals simp_all
  · intro e f he
    rw [mergeRecord_name]
    simp [he]

/-- Witness for claim C8 at concrete records. -/
theorem merge_name_if_better_witness :
    (mergeRecord aliceNamedRec unknownNamedRec).name = "Alice"
    ∧ (mergeRecord aliceNamedRec unknownNamedRec).name ≠ "Unknown" :=
  ⟨merge_name_if_better.1 aliceNamedRec unknownNamedRec (by decide),
   merge_name_if_better.2.2.1 aliceNamedRec unknownNamedRec (by decide)⟩


/-! ### Connection-close handling (`connection.update`, close branch) -/

/-- The process-wide registry state touched by the close branch:
`sockets`, `qrCodes`, `sessionChats` and `sessionMessages`, all keyed
by session name. -/
structure GatewayState where
  sockets : List String
  qrCodes : List (String × String)
  sessionChats : List (String × ChatMap)
  sessionMessages : List (String × MsgStore)
deriving DecidableEq

/-- `DisconnectReason.loggedOut` from the Baileys library. -/
def disconnectReasonLoggedOut : Int := 401

/-- The `connection === 'close'` branch of the `connection.update`
handler: delete the socket, pending QR and chat map for the session;
when the status code is anything other than `loggedOut` (including an
absent code), schedule exactly one reconnect of the same session after
3000 ms.  The session's message ledger (`sessionMessages`) is not
touched.  Returns the new state and the list of scheduled reconnects
`(sessionName, delayMs)`. -/
def handleClose (st : GatewayState) (sessionName : String)
    (statusCode : Option Int) : GatewayState × List (String × Nat) :=
  let shouldReconnect := statusCode ≠ some disconnectReasonLoggedOut
  let st2 : GatewayState :=
    { st with
      sockets := st.sockets.filter (fun n => n != sessionName),
      qrCodes := st.qrCodes.filter (fun p => p.1 != sessionName),
      sessionChats := st.sessionChats.filter (fun p => p.1 != sessionName) }
  (st2, if shouldReconnect then [(sessionName, 3000)] else [])

/-- Claim C7: a close with reason "logged out" removes the session's
socket, pending QR and chat directory and schedules no reconnect; a
close with any other reason clears the same entries and schedules
exactly one reconnect of the same session name after 3 seconds; and in
both cases the per-session message ledger is untouched. -/
theorem close_transition :
    (∀ (st : GatewayState) (name : String),
      (handleClose st name (some disconnectReasonLoggedOut)).2 = []
      ∧ ((handleClose st name (some disconnectReasonLoggedOut)).1.sockets.contains name) = false
      ∧ ((handleClose st name (some disconnectReasonLoggedOut)).1.qrCodes.any
          (fun p => p.1 == name)) = false
      ∧ ((handleClose st name (some disconnectReasonLoggedOut)).1.sessionChats.any
          (fun p => p.1 == name)) = false)
    ∧ (∀ (st : GatewayState) (name : String) (code : Option Int),
      code ≠ some disconnectReasonLoggedOut →
      (handleClose st name code).2 = [(name, 3000)]
      ∧ ((handleClose st name code).1.qrCodes.any (fun p => p.1 == name)) = false
      ∧ ((handleClose st name code).1.sessionChats.any (fun p => p.1 == name)) = false)
    ∧ (∀ (st : GatewayState) (name : String) (code : Option Int),
      (handleClose st name code).1.sessionMessages = st.sessionMessages) := by
  refine ⟨?_, ?_, ?_⟩
  · intro st name
    refine ⟨by simp [handleClose], ?_, ?_, ?_⟩
    · simp [handleClose, List.contains_eq_any_beq, List.any_filter]
    · simp [handleClose, List.any_filter]
    · simp [handleClose, List.any_filter]
  · intro st name code hcode
    refine ⟨by simp [handleClose, hcode], ?_, ?_⟩
    · simp [handleClose, List.any_filter]
    · simp [handleClose, List.any_filter]
  · intro st name code
    rfl

/-- Witness for claim C7 at a concrete one-session state. -/
theorem close_transition_witness :
    (handleClose ⟨["s1"], [("s1", "qr")], [("s1", [])], [("s1", [])]⟩ "s1" (some 428)).2
        = [("s1", 3000)]
    ∧ ((handleClose ⟨["s1"], [("s1", "qr")], [("s1", [])], [("s1", [])]⟩ "s1"
        (some 428)).1.qrCodes.any (fun p => p.1 == "s1")) = false
    ∧ ((handleClose ⟨["s1"], [("s1", "qr")], [("s1", [])], [("s1", [])]⟩ "s1"
        (some 428)).1.sessionChats.any (fun p => p.1 == "s1")) = false :=
  close_transition.2.1 ⟨["s1"], [("s1", "qr")], [("s1", [])], [("s1", [])]⟩ "s1"
    (some 428) (by decide)


/-! ### The messages endpoint (`GET /api/:session/messages/:jid`) -/

/-- The in-place timestamp normalisation applied to extracted raw
messages: a truthy string `messageTimestamp` is replaced by
`parseInt(…, 10)` of itself (possibly `NaN`). -/
def normalizeMsgTs (m : Msg) : Msg :=
  match m.messageTimestamp with
  | .str s =>
    if !s.isEmpty then
      { m with messageTimestamp :=
          match jsParseInt s with
          | some n => .num n
          | none => .nan }
    else m
  | _ => m

/-- `const msg = msgWrapper.message || msgWrapper` followed by the
`msg && msg.key && msg.key.id` guard.  For a `bare` message that has a
content payload, `msgWrapper.message` selects the content object, which
has no `.key`, so the entry is dropped. -/
def unwrapSelect (w : MsgWrapper) : Option Msg :=
  match w with
  | .wrapped m =>
    match m.key with
    | some k => if truthyS k.id then some m else none
    | none => none
  | .bare m =>
    match m.message with
    | some _ => none
    | none =>
      match m.key with
      | some k => if truthyS k.id then some m else none
      | none => none

/-- Extraction of the messages embedded in a chat's raw payload
(validation + timestamp normalisation). -/
def extractRaw (raws : List MsgWrapper) : List Msg :=
  raws.filterMap (fun w => (unwrapSelect w).map normalizeMsgTs)

/-- `chat.messages || chat.raw?.messages || []` — note that an *empty
array* present under `chat.messages` is truthy and suppresses the
fallback. -/
def rawEmbedded (chat : Chat) : List MsgWrapper :=
  match chat.messages with
  | some l => l
  | none =>
    match chat.rawMessages with
    | some l => l
    | none => []

/-- The write-back push: append unless a message with the same
`key?.id` is already stored. -/
def pushIfNew (acc : List Msg) (m : Msg) : List Msg :=
  if acc.any (fun m2 => keyId m2 == keyId m) then acc else acc ++ [m]

/-- Strategy 1b: extract the messages embedded in the chat's raw
payload and write them back into the session message store
(deduplicated by id). -/
def rawPayloadFallback (store1 : MsgStore) (chatMap : ChatMap) (jid : String) :
    List Msg × MsgStore :=
  match lookupChat chatMap jid with
  | some chat =>
    let rawMessages := rawEmbedded chat
    if rawMessages.length > 0 then
      let extracted := extractRaw rawMessages
      let cur := (storeGet store1 jid).getD []
      (extracted, storeSet store1 jid (extracted.foldl pushIfNew cur))
    else ([], store1)
  | none => ([], store1)

/-- Sort key of the strategy-2 comparator
`(b.messageTimestamp || 0) - (a.messageTimestamp || 0)` (falsy — 0,
`""`, `NaN`, absent — gives 0; a non-numeric string again totalises to
0, see the header note). -/
def rawTsKey (m : Msg) : Int :=
  if m.messageTimestamp.truthy then (m.messageTimestamp.toNumber).getD 0 else 0

/-- Descending comparator of strategy 2. -/
def storeDescLe (a b : Msg) : Bool :=
  rawTsKey b ≤ rawTsKey a

/-- Strategy 2: the bound Baileys in-memory store (sorted newest first,
truncated; not written back). -/
def baileysStoreFallback (baileysStore : String → Option (List Msg)) (jid : String)
    (requestedLimit : Nat) : List Msg :=
  match baileysStore jid with
  | some storeArray =>
    if storeArray.length > 0 then
      (stableSortB storeDescLe storeArray).take (max 5 requestedLimit)
    else []
  | none => []

/-- The outcome of the retrieval chain: the raw messages selected for
the response, the (possibly updated) session message store, and whether
the live `loadMessages` fetch was attempted. -/
structure RetrieveOut where
  messages : List Msg
  msgStore : MsgStore
  liveAttempted : Bool
deriving DecidableEq

/-- The retrieval strategy chain of the messages endpoint: the session
ledger (via `getMessagesForChat`), then the chat's embedded raw
payload, then the Baileys store, then the live fetch (modelled by
`live`, an `Except` since it can fail; its errors are caught and
swallowed).  On a successful live fetch the write-back block
dereferences the undeclared identifier `messageStore` and throws a
`ReferenceError` that the same `catch` swallows after `messages` was
already assigned: the loaded messages are returned but never
persisted. -/
def retrieveMessages (decode : String → String) (store0 : MsgStore)
    (chatMap : ChatMap) (baileysStore : String → Option (List Msg))
    (live : Except String (List Msg)) (jid : String) (requestedLimit : Nat) :
    RetrieveOut :=
  let s1 := getMessagesForChat decode store0 chatMap jid (max 5 requestedLimit)
  if !s1.1.isEmpty then ⟨s1.1, s1.2, false⟩
  else
    let step2 := rawPayloadFallback s1.2 chatMap jid
    let messages3 :=
      if step2.1.isEmpty then baileysStoreFallback baileysStore jid requestedLimit
      else step2.1
    if messages3.isEmpty then
      match live with
      | .ok loaded =>
        if loaded.length > 0 then ⟨loaded, step2.2, true⟩
        else ⟨[], step2.2, true⟩
      | .error _ => ⟨[], step2.2, true⟩
    else ⟨messages3, step2.2, false⟩

/-- A formatted response message.  The ISO timestamp string is
modelled by its integer seconds value (the conversion is monotone and
injective). -/
structure FmtMsg where
  id : Option String
  fromJid : String
  fromMe : Bool
  text : String
  type : String
  timestamp : Option Int
  mightBeUnread : Bool
deriving DecidableEq

/-- The response formatter for one raw message: id, sender, own-message
flag, `parseInt` timestamp kept only when positive, the heuristic
might-be-unread flag (not own and within the last 24 h of `now`), and
the derived text/type tag. -/
def formatMsg (now : Int) (jid : String) (msg : Msg) : FmtMsg :=
  let messageId := msg.key.bind (·.id)
  let fromJid := jsOrSD (msg.key.map (·.remoteJid)) jid
  let fromMe :=
    match msg.key with
    | some k => k.fromMe
    | none => false
  let timestamp : Option Int :=
    if msg.messageTimestamp.truthy then
      match msg.messageTimestamp.parseIntOrId with
      | some ts => if ts > 0 then some ts else none
      | none => none
    else none
  let isRecent : Bool :=
    match timestamp with
    | some t => decide (now - t * 1000 < 86400000)
    | none => false
  let mightBeUnread := !fromMe && isRecent
  let textAndType : String × String :=
    match msg.message with
    | none => ("", "unknown")
    | some b =>
      match b.content with
      | .conversation t => if !t.isEmpty then (t, "text") else ("", "unknown")
      | .extendedText t => if !t.isEmpty then (t, "text") else ("", "unknown")
      | .image cap => (jsOrSD cap "[Image]", "image")
      | .video cap => (jsOrSD cap "[Video]", "video")
      | .audio => ("[Audio]", "audio")
      | .document fn => ("[Document] " ++ (match fn with | some f => f | none => ""), "document")
      | .sticker => ("[Sticker]", "sticker")
      | .other => ("", "unknown")
  { id := messageId, fromJid := fromJid, fromMe := fromMe,
    text := textAndType.1, type := textAndType.2, timestamp := timestamp,
    mightBeUnread := mightBeUnread }

/-- `new Date(timestamp).getTime()` of a formatted message, with `0`
for a `null` timestamp — the sort key of the response comparator. -/
def fmtTime (f : FmtMsg) : Int :=
  match f.timestamp with
  | some t => t * 1000
  | none => 0

/-- The response comparator: might-be-unread messages first, then
newest first. -/
def unreadLe (a b : FmtMsg) : Bool :=
  (a.mightBeUnread && !b.mightBeUnread)
    || ((a.mightBeUnread == b.mightBeUnread) && (fmtTime b ≤ fmtTime a))

/-- Post-processing of the selected messages: format, drop records
without a truthy id, sort (unread first, then newest first), truncate
to `min(20, max(5, min(limit, length)))`, and reverse the truncated
slice. -/
def finalizeMessages (now : Int) (jid : String) (requestedLimit : Nat)
    (messages : List Msg) : List FmtMsg :=
  let formattedMessages := (messages.map (formatMsg now jid)).filter (fun f => truthyS f.id)
  let sorted := stableSortB unreadLe formattedMessages
  let minMessages := 5
  let finalLimit := min 20 (max minMessages (min requestedLimit sorted.length))
  (sorted.take finalLimit).reverse

/-- The JSON response of the messages endpoint (the fields the claims
speak about). -/
structure MsgResponse where
  status : Nat
  success : Bool
  messages : List FmtMsg
  total : Nat
  unreadCount : Nat
  warning : Option String
  errorMsg : Option String
deriving DecidableEq

/-- The catch handler of the endpoint: despite the failure it answers
HTTP 200 with an empty list and an explanatory warning. -/
def catchHandlerResponse (_jid errMessage : String) : MsgResponse :=
  { status := 200, success := true, messages := [], total := 0, unreadCount := 0,
    warning := some ("Error loading messages: " ++ errMessage
      ++ ". Messages are only available if the chat was recently opened on the linked device."),
    errorMsg := some errMessage }

/-- The whole `GET /api/:session/messages/:jid` handler: the
connected-session check (HTTP 400), then the retrieval chain and the
response formatting, always with HTTP 200. -/
def messagesEndpoint (connected : Bool) (now : Int) (decode : String → String)
    (store0 : MsgStore) (chatMap : ChatMap)
    (baileysStore : String → Option (List Msg)) (live : Except String (List Msg))
    (jid : String) (requestedLimit : Nat) : MsgResponse :=
  if !connected then
    { status := 400, success := false, messages := [], total := 0, unreadCount := 0,
      warning := none, errorMsg := some "Session not connected" }
  else
    let unreadCount :=
      match lookupChat chatMap jid with
      | some chat => jsOrN3 chat.unreadCount chat.count chat.unread
      | none => 0
    let r := retrieveMessages decode store0 chatMap baileysStore live jid requestedLimit
    let finalMessages := finalizeMessages now jid requestedLimit r.messages
    { status := 200, success := true, messages := finalMessages,
      total := finalMessages.length, unreadCount := unreadCount,
      warning :=
        if r.messages.isEmpty then
          some "No messages available. This is a WhatsApp MD limitation - messages are only available if the chat was recently opened on the linked device."
        else none,
      errorMsg := none }


/-! ### Retrieval-chain lemmas -/

lemma storeGet_storeSet (s : MsgStore) (k : String) (v : List Msg) :
    storeGet (storeSet s k v) k = some v := by
  induction s with
  | nil => simp [storeSet, storeGet]
  | cons p rest ih =>
    obtain ⟨k2, v2⟩ := p
    by_cases h : k2 = k
    · subst h
      simp [storeSet, storeGet]
    · have hb : (k2 == k) = false := beq_eq_false_iff_ne.mpr h
      simp [storeSet, storeGet, hb, ih]

/-- When a read returns no messages, the exact-jid entry was absent or
empty, and the store was left untouched. -/
lemma gmfc_empty (decode : String → String) (store : MsgStore) (chatMap : ChatMap)
    (jid : String) (minCount : Nat) (hmin : 1 ≤ minCount)
    (h : (getMessagesForChat decode store chatMap jid minCount).1 = []) :
    (storeGet store jid = none ∨ storeGet store jid = some [])
    ∧ (getMessagesForChat decode store chatMap jid minCount).2 = store := by
  have hexact : storeGet store jid = none ∨ storeGet store jid = some [] := by
    match hget : storeGet store jid with
    | none => exact Or.inl rfl
    | some [] => exact Or.inr rfl
    | some (a :: t) =>
      exfalso
      have hhit : gmfcHit decode store jid = some (jid, a :: t) := by
        unfold gmfcHit
        rw [hget]
        simp
      unfold getMessagesForChat at h
      rw [hhit] at h
      simp only [List.isEmpty_cons, Bool.false_eq_true, if_false] at h
      have hlen := congrArg List.length h
      simp only [List.length_drop, List.length_nil, sortByTs, length_stableSortB,
        List.length_cons] at hlen
      omega
  refine ⟨hexact, ?_⟩
  unfold getMessagesForChat at h ⊢
  match hhit : gmfcHit decode store jid with
  | none => rfl
  | some (sj, l) =>
    rw [hhit] at h
    match l with
    | [] => simp
    | a :: t =>
      exfalso
      simp only [List.isEmpty_cons, Bool.false_eq_true, if_false] at h
      have hlen := congrArg List.length h
      simp only [List.length_drop, List.length_nil, sortByTs, length_stableSortB,
        List.length_cons] at hlen
      omega

/-- With a live-fetch error the chain either never reached the live
strategy or returns no messages. -/
lemma retrieve_live_error (decode : String → String) (store0 : MsgStore)
    (chatMap : ChatMap) (baileysStore : String → Option (List Msg)) (e : String)
    (jid : String) (requestedLimit : Nat) :
    (retrieveMessages decode store0 chatMap baileysStore (.error e) jid
      requestedLimit).messages = []
    ∨ (retrieveMessages decode store0 chatMap baileysStore (.error e) jid
      requestedLimit).liveAttempted = false := by
  simp only [retrieveMessages]
  repeat' split
  all_goals first
  | (left; rfl)
  | (right; rfl)


/-- Claim C5: when the ledger read is empty but the chat's raw payload
embeds 3 (distinct-id, valid) messages, the endpoint serves exactly
those 3 messages, writes them back into the session message store
under the requested jid, and never attempts the live fetch. -/
theorem raw_payload_fallback_served :
    ∀ (decode : String → String) (store0 : MsgStore) (chatMap : ChatMap)
      (baileysStore : String → Option (List Msg)) (live : Except String (List Msg))
      (jid : String) (requestedLimit : Nat) (chat : Chat) (m1 m2 m3 : Msg),
      (getMessagesForChat decode store0 chatMap jid (max 5 requestedLimit)).1 = [] →
      lookupChat chatMap jid = some chat →
      extractRaw (rawEmbedded chat) = [m1, m2, m3] →
      keyId m1 ≠ keyId m2 → keyId m1 ≠ keyId m3 → keyId m2 ≠ keyId m3 →
      (retrieveMessages decode store0 chatMap baileysStore live jid
          requestedLimit).messages = [m1, m2, m3]
      ∧ storeGet (retrieveMessages decode store0 chatMap baileysStore live jid
          requestedLimit).msgStore jid = some [m1, m2, m3]
      ∧ (retrieveMessages decode store0 chatMap baileysStore live jid
          requestedLimit).liveAttempted = false := by
  intro decode store0 chatMap bs live jid lim chat m1 m2 m3 h1 hchat hex h12 h13 h23
  obtain ⟨hstore0, hsnd⟩ := gmfc_empty decode store0 chatMap jid (max 5 lim) (by omega) h1
  have hcur : (storeGet store0 jid).getD [] = [] := by
    rcases hstore0 with h | h <;> simp [h]
  have hrawne : rawEmbedded chat ≠ [] := by
    intro hnil
    rw [hnil] at hex
    simp [extractRaw] at hex
  have hlenpos : (rawEmbedded chat).length > 0 := List.length_pos.mpr hrawne
  have hfold : [m1, m2, m3].foldl pushIfNew ([] : List Msg) = [m1, m2, m3] := by
    have hb12 : (keyId m1 == keyId m2) = false := beq_eq_false_iff_ne.mpr h12
    have hb13 : (keyId m1 == keyId m3) = false := beq_eq_false_iff_ne.mpr h13
    have hb23 : (keyId m2 == keyId m3) = false := beq_eq_false_iff_ne.mpr h23
    simp [pushIfNew, hb12, hb13, hb23]
  have hstep2 : rawPayloadFallback
      (getMessagesForChat decode store0 chatMap jid (max 5 lim)).2 chatMap jid
      = ([m1, m2, m3], storeSet store0 jid [m1, m2, m3]) := by
    rw [hsnd]
    unfold rawPayloadFallback
    rw [hchat]
    simp only [hlenpos, if_pos, hex, hcur, hfold]
  have hres : retrieveMessages decode store0 chatMap bs live jid lim
      = ⟨[m1, m2, m3], storeSet store0 jid [m1, m2, m3], false⟩ := by
    simp only [retrieveMessages, h1, List.isEmpty_nil, Bool.not_true,
      Bool.false_eq_true, if_false]
    rw [hstep2]
    simp
  rw [hres]
  exact ⟨rfl, storeGet_storeSet store0 jid [m1, m2, m3], rfl⟩

/-- A chat whose raw payload embeds three wrapped messages. -/
def chatWithRaw : Chat :=
  { blankChat with
    id := some "r@s.whatsapp.net",
    messages := some [.wrapped (mkLedgerMsg 11), .wrapped (mkLedgerMsg 12),
      .wrapped (mkLedgerMsg 13)] }

/-- Witness for claim C5 at a concrete empty store and a three-message
raw payload. -/
theorem raw_payload_fallback_served_witness :
    (retrieveMessages id [] [("r@s.whatsapp.net", chatWithRaw)] (fun _ => none)
      (.error "timeout") "r@s.whatsapp.net" 20).messages
        = [mkLedgerMsg 11, mkLedgerMsg 12, mkLedgerMsg 13]
    ∧ storeGet (retrieveMessages id [] [("r@s.whatsapp.net", chatWithRaw)] (fun _ => none)
      (.error "timeout") "r@s.whatsapp.net" 20).msgStore "r@s.whatsapp.net"
        = some [mkLedgerMsg 11, mkLedgerMsg 12, mkLedgerMsg 13]
    ∧ (retrieveMessages id [] [("r@s.whatsapp.net", chatWithRaw)] (fun _ => none)
      (.error "timeout") "r@s.whatsapp.net" 20).liveAttempted = false :=
  raw_payload_fallback_served id [] [("r@s.whatsapp.net", chatWithRaw)] (fun _ => none)
    (.error "timeout") "r@s.whatsapp.net" 20 chatWithRaw
    (mkLedgerMsg 11) (mkLedgerMsg 12) (mkLedgerMsg 13)
    (by decide) (by decide) (by decide) (by decide) (by decide) (by decide)

/-! ### Claim C6: response cap and final order -/

lemma unreadLe_trans (a b c : FmtMsg) (h1 : unreadLe a b = true)
    (h2 : unreadLe b c = true) : unreadLe a c = true := by
  simp only [unreadLe, Bool.or_eq_true, Bool.and_eq_true, Bool.not_eq_true',
    beq_iff_eq, decide_eq_true_eq] at *
  cases ha : a.mightBeUnread <;> cases hb : b.mightBeUnread <;> cases hc : c.mightBeUnread <;>
    simp_all <;> omega

lemma unreadLe_total (a b : FmtMsg) : unreadLe a b || unreadLe b a := by
  simp only [unreadLe, Bool.or_eq_true, Bool.and_eq_true, Bool.not_eq_true',
    beq_iff_eq, decide_eq_true_eq]
  cases ha : a.mightBeUnread <;> cases hb : b.mightBeUnread <;> simp_all <;> omega

lemma mem_stableSortB {α : Type} (le : α → α → Bool) (l : List α) (x : α) :
    x ∈ stableSortB le l ↔ x ∈ l := by
  induction l with
  | nil => simp [stableSortB]
  | cons a l ih =>
    simp only [stableSortB, mem_orderedInsertB, List.mem_cons, ih]

/-- The sample evaluation time and messages showing the unread-priority
sort: an own recent message (not "might be unread") and an older
incoming one (heuristically unread). -/
def nowEx : Int := 1700000000000

/-- An own (from-me) message, 100 s before `nowEx`. -/
def mFromMe : Msg :=
  { key := some { remoteJid := "x@s.whatsapp.net", id := some "A1", fromMe := true },
    messageTimestamp := .num 1699999900, timestamp := .missing,
    message := some { content := .conversation "hi", messageTimestamp := .missing } }

/-- An incoming message, 1000 s before `nowEx` (older, might be unread). -/
def mUnread : Msg :=
  { key := some { remoteJid := "x@s.whatsapp.net", id := some "A2", fromMe := false },
    messageTimestamp := .num 1699999000, timestamp := .missing,
    message := some { content := .conversation "yo", messageTimestamp := .missing } }

/-- Counterexample for claim C6: the response is *not* chronologically
oldest-first in general — the `mightBeUnread` priority of the sort
survives the final reversal, so the own message (timestamp 1699999900)
is returned before the older incoming one (timestamp 1699999000). -/
theorem finalize_not_chronological :
    (finalizeMessages nowEx "x@s.whatsapp.net" 20 [mFromMe, mUnread]).map
        (fun f => f.timestamp) = [some 1699999900, some 1699999000]
    ∧ ¬ List.Pairwise (fun x y => fmtTime x ≤ fmtTime y)
        (finalizeMessages nowEx "x@s.whatsapp.net" 20 [mFromMe, mUnread]) :=
  ⟨by decide, by decide⟩

/-- Claim C6 (amended): the response never holds more than 20 messages
regardless of the requested limit, and it is the reversal of the
sorted, truncated list — which is chronological oldest-first whenever
all formatted messages agree on the might-be-unread flag (in general,
might-be-unread messages are moved to the end of the reversed slice,
breaking global chronology). -/
theorem response_cap_and_reverse :
    (∀ (now : Int) (jid : String) (requestedLimit : Nat) (msgs : List Msg),
      (finalizeMessages now jid requestedLimit msgs).length ≤ 20)
    ∧ (∀ (now : Int) (jid : String) (requestedLimit : Nat) (msgs : List Msg),
      (∀ a ∈ msgs, ∀ b ∈ msgs,
        (formatMsg now jid a).mightBeUnread = (formatMsg now jid b).mightBeUnread) →
      List.Pairwise (fun x y => fmtTime x ≤ fmtTime y)
        (finalizeMessages now jid requestedLimit msgs)) := by
  constructor
  · intro now jid lim msgs
    unfold finalizeMessages
    simp only [List.length_reverse, List.length_take]
    omega
  · intro now jid lim msgs huni
    unfold finalizeMessages
    simp only
    rw [List.pairwise_reverse]
    have hflag : ∀ x ∈ stableSortB unreadLe
        ((msgs.map (formatMsg now jid)).filter (fun f => truthyS f.id)),
        ∀ y ∈ stableSortB unreadLe
        ((msgs.map (formatMsg now jid)).filter (fun f => truthyS f.id)),
        x.mightBeUnread = y.mightBeUnread := by
      intro x hx y hy
      rw [mem_stableSortB] at hx hy
      rw [List.mem_filter] at hx hy
      rcases List.mem_map.mp hx.1 with ⟨a, ha, rfl⟩
      rcases List.mem_map.mp hy.1 with ⟨b, hb, rfl⟩
      exact huni a ha b hb
    have hp := pairwise_stableSortB unreadLe unreadLe_trans unreadLe_total
      ((msgs.map (formatMsg now jid)).filter (fun f => truthyS f.id))
    have hp2 : (stableSortB unreadLe
        ((msgs.map (formatMsg now jid)).filter (fun f => truthyS f.id))).Pairwise
        (fun x y => fmtTime y ≤ fmtTime x) := by
      refine List.Pairwise.imp_of_mem ?_ hp
      intro x y hx hy hxy
      have hfl := hflag x hx y hy
      simp only [unreadLe, Bool.or_eq_true, Bool.and_eq_true, Bool.not_eq_true',
        beq_iff_eq, decide_eq_true_eq] at hxy
      rcases hxy with ⟨hxu, hyu⟩ | ⟨_, hle⟩
      · rw [hfl] at hxu
        rw [hxu] at hyu
        cases hyu
      · exact hle
    exact List.Pairwise.sublist (List.take_sublist _ _) hp2

/-- A second own message for the uniform-flag witness batch. -/
def mFromMe2 : Msg :=
  { mFromMe with
    key := some { remoteJid := "x@s.whatsapp.net", id := some "A3", fromMe := true },
    messageTimestamp := .num 1699999800 }

/-- Witness for (amended) claim C6 at a uniform-flag batch. -/
theorem response_cap_and_reverse_witness :
    List.Pairwise (fun x y => fmtTime x ≤ fmtTime y)
      (finalizeMessages nowEx "x@s.whatsapp.net" 1000 [mFromMe, mFromMe2]) :=
  response_cap_and_reverse.2 nowEx "x@s.whatsapp.net" 1000 [mFromMe, mFromMe2]
    (by decide)

/-! ### Claim C9: retrieval failures never produce an error status -/

/-- Claim C9: once the connected-session check passes the endpoint
answers HTTP 200; when the chain reaches the live fetch and it fails,
the failure is swallowed and the response is still HTTP 200 with an
empty message list and an explanatory warning; and the catch handler
(which also covers the `ReferenceError` of the dead write-back branch)
likewise answers HTTP 200 with empty data and a warning. -/
theorem retrieval_never_errors :
    (∀ (now : Int) (decode : String → String) (store0 : MsgStore) (chatMap : ChatMap)
        (baileysStore : String → Option (List Msg)) (live : Except String (List Msg))
        (jid : String) (requestedLimit : Nat),
      (messagesEndpoint true now decode store0 chatMap baileysStore live jid
        requestedLimit).status = 200)
    ∧ (∀ (now : Int) (decode : String → String) (store0 : MsgStore) (chatMap : ChatMap)
        (baileysStore : String → Option (List Msg)) (e : String)
        (jid : String) (requestedLimit : Nat),
      (retrieveMessages decode store0 chatMap baileysStore (.error e) jid
        requestedLimit).liveAttempted = true →
      (messagesEndpoint true now decode store0 chatMap baileysStore (.error e) jid
        requestedLimit).messages = []
      ∧ ((messagesEndpoint true now decode store0 chatMap baileysStore (.error e) jid
        requestedLimit).warning).isSome = true)
    ∧ (∀ (jid e : String),
      (catchHandlerResponse jid e).status = 200
      ∧ (catchHandlerResponse jid e).messages = []
      ∧ ((catchHandlerResponse jid e).warning).isSome = true) := by
  refine ⟨?_, ?_, ?_⟩
  · intro now decode store0 chatMap bs live jid lim
    simp [messagesEndpoint]
  · intro now decode store0 chatMap bs e jid lim h
    rcases retrieve_live_error decode store0 chatMap bs e jid lim with hm | hf
    · constructor
      · simp [messagesEndpoint, hm, finalizeMessages, stableSortB]
      · simp [messagesEndpoint, hm]
    · rw [h] at hf
      cases hf
  · intro jid e
    exact ⟨rfl, rfl, rfl⟩

/-- Witness for claim C9: a chain that reaches a failing live fetch
still produces an HTTP 200 empty response with a warning. -/
theorem retrieval_never_errors_witness :
    (messagesEndpoint true nowEx id [] [] (fun _ => none) (.error "boom") "z@s.whatsapp.net"
      20).messages = []
    ∧ ((messagesEndpoint true nowEx id [] [] (fun _ => none) (.error "boom")
      "z@s.whatsapp.net" 20).warning).isSome = true :=
  retrieval_never_errors.2.1 nowEx id [] [] (fun _ => none) "boom" "z@s.whatsapp.net" 20
    (by decide)

/-! ### Claim C10: reading mutates the ledger -/

/-- 100 messages inserted in *descending* timestamp order (ids 99 … 0),
so insertion order and timestamp order disagree. -/
def ms100 : List Msg := (List.range 100).map (fun i => mkLedgerMsg (99 - i))

/-- A one-chat session message store holding `ms100`. -/
def store100 : MsgStore := [("c@s.whatsapp.net", ms100)]

/-- Claim C10: `getMessagesForChat` sorts the stored array in place, so
any read replaces the ledger's insertion order with timestamp order;
concretely, after one read of a chat whose 100 messages were inserted
newest-timestamp-first, an over-cap append evicts the
timestamp-oldest message (id "0", the most recently inserted) while
the insertion-oldest message (id "99") survives. -/
theorem read_sort_mutates_ledger :
    (∀ (decode : String → String) (store : MsgStore) (chatMap : ChatMap)
        (jid : String) (minCount : Nat) (l : List Msg),
      storeGet store jid = some l → l ≠ [] →
      storeGet (getMessagesForChat decode store chatMap jid minCount).2 jid
        = some (sortByTs l))
    ∧ (ms100.map keyId).head? = some (some "99")
    ∧ ((storeGet ((getMessagesForChat id store100 [] "c@s.whatsapp.net" 10).2)
        "c@s.whatsapp.net").getD []).map keyId
        = (List.range 100).map (fun i => some (toString i))
    ∧ ((appendMessage ((storeGet ((getMessagesForChat id store100 []
        "c@s.whatsapp.net" 10).2) "c@s.whatsapp.net").getD []) (mkLedgerMsg 100)).any
        (fun m => keyId m == some "0")) = false
    ∧ ((appendMessage ((storeGet ((getMessagesForChat id store100 []
        "c@s.whatsapp.net" 10).2) "c@s.whatsapp.net").getD []) (mkLedgerMsg 100)).any
        (fun m => keyId m == some "99")) = true := by
  refine ⟨?_, by decide, by decide, by decide, by decide⟩
  intro decode store chatMap jid minCount l hget hne
  have hhit : gmfcHit decode store jid = some (jid, l) := by
    unfold gmfcHit
    rw [hget]
    match l, hne with
    | a :: t, _ => simp
  unfold getMessagesForChat
  rw [hhit]
  match l, hne with
  | a :: t, _ =>
    simp only [List.isEmpty_cons, Bool.false_eq_true, if_false]
    exact storeGet_storeSet store jid (sortByTs (a :: t))

/-- Witness for claim C10: the in-place sort observed at the concrete
store. -/
theorem read_sort_mutates_ledger_witness :
    storeGet (getMessagesForChat id store100 [] "c@s.whatsapp.net" 10).2
      "c@s.whatsapp.net" = some (sortByTs ms100) :=
  read_sort_mutates_ledger.1 id store100 [] "c@s.whatsapp.net" 10 ms100
    (by decide) (by decide)

end Gateway
